import Mathlib

/-!
Verification development for the punchcard-data-tool repository.

The repository ingests time-clock punch spreadsheets, normalizes
ROC-calendar dates and digit-string times inside a SQLite store,
pivots punches into an `integrated_punch` fact table, and derives
night-meal eligibility records (last punch of the day strictly after
22:00:00, with at-most-one-record-per-account-and-date dedup).

This file gives a shallow embedding of the relevant source functions:
  * `convert_date_format` / `convert_time_format` — the two SQL `UPDATE`
    `CASE` expressions in `convert_date_time_format` (01 資料整理),
    applied to a single stored string;
  * `check_night_meal`, `process_night_meal_data` (substring-slicing
    variant, 02 夜點清算csv) and `process_night_meal_data_html`
    (datetime-parsing variant, 夜點html.py);
  * `integrate_data` — the pivot step of 01 資料整理, starting from the
    grouped result of the `GROUP BY`/`GROUP_CONCAT` query;
  * `clean_and_store_excel` and the top-level `main_run` file-handling
    flow.

Python / SQLite library functions used by the source are embedded
explicitly: `strptimeHMS`/`strptimeYMD` model
`datetime.strptime('%H:%M:%S' / '%Y-%m-%d')` (returning `none` where
Python raises `ValueError`), `splitChar` models `str.split`,
`pySlice` models Python slicing, `sqliteSubstr`/`sqliteCastInt` model
SQLite `SUBSTR` and `CAST(... AS INTEGER)`.
-/

/-- The character for a decimal digit `n` (`'0'` for 0, …). -/
def dChar (n : Nat) : Char := Char.ofNat (48 + n)

/-- Decimal value of the longest digit prefix, accumulator style.
Models how SQLite's `CAST(x AS INTEGER)` consumes a digit prefix. -/
def castDigits : List Char → Nat → Nat
  | [], acc => acc
  | c :: cs, acc => if c.isDigit then castDigits cs (10 * acc + (c.toNat - 48)) else acc

/-- Zero-padded two-digit decimal rendering (Python `f"{n:02}"` for `n < 100`). -/
def pad2 (n : Nat) : String := String.mk [dChar (n / 10 % 10), dChar (n % 10)]

/-- Zero-padded three-digit decimal rendering (for `n < 1000`). -/
def pad3 (n : Nat) : String :=
  String.mk [dChar (n / 100 % 10), dChar (n / 10 % 10), dChar (n % 10)]

/-- Zero-padded four-digit decimal rendering (for `n < 10000`). -/
def pad4 (n : Nat) : String :=
  String.mk [dChar (n / 1000 % 10), dChar (n / 100 % 10), dChar (n / 10 % 10), dChar (n % 10)]

/-- SQLite `SUBSTR(s, start, len)` for a positive 1-based `start`. -/
def sqliteSubstr (s : String) (start len : Nat) : String :=
  String.mk ((s.data.drop (start - 1)).take len)

/-- SQLite `CAST(s AS INTEGER)`: skip leading whitespace, read an optional
sign and then the longest digit prefix; no digits yields 0. -/
def sqliteCastInt (s : String) : Int :=
  let cs := s.data.dropWhile (fun c => c.isWhitespace)
  match cs with
  | [] => 0
  | c :: rest =>
    if c = '-' then -(castDigits rest 0 : Int)
    else if c = '+' then (castDigits rest 0 : Int)
    else (castDigits (c :: rest) 0 : Int)

/-- The 刷卡日期 `CASE` expression of `convert_date_time_format`
(01 資料整理, the spec's `normalize_date`): a string of `LENGTH` 7 is
rebuilt as `CAST(SUBSTR(s,1,3)) + 1911 || '-' || SUBSTR(s,4,2) || '-' ||
SUBSTR(s,6,2)`; anything else passes through unchanged. -/
def convert_date_format (s : String) : String :=
  if s.length = 7 then
    toString (sqliteCastInt (sqliteSubstr s 1 3) + 1911) ++ "-" ++
      sqliteSubstr s 4 2 ++ "-" ++ sqliteSubstr s 6 2
  else s

/-- The 刷卡時間 `CASE` expression of `convert_date_time_format`
(01 資料整理, the spec's `normalize_time`): a string of `LENGTH` 4 is
rebuilt as `SUBSTR(s,1,2) || ':' || SUBSTR(s,3,2) || ':00'`; anything
else passes through unchanged. -/
def convert_time_format (s : String) : String :=
  if s.length = 4 then
    sqliteSubstr s 1 2 ++ ":" ++ sqliteSubstr s 3 2 ++ ":00"
  else s

/-- Python `str.split(sep)` on a character list: split at every
occurrence of `sep`; the empty string yields `[[]]`. -/
def splitChar (sep : Char) : List Char → List (List Char)
  | [] => [[]]
  | c :: cs =>
    match splitChar sep cs with
    | [] => [[]]
    | h :: t => if c = sep then [] :: h :: t else (c :: h) :: t

/-- One numeric field of a `strptime` format: 1 or 2 digit characters
whose value is at most `maxv` (CPython's `%H`/`%M`/`%S`/`%m`/`%d`
regexes combined with the `datetime` constructor's range checks). -/
def parseField (cs : List Char) (maxv : Nat) : Option Nat :=
  if cs ≠ [] ∧ cs.length ≤ 2 ∧ cs.all Char.isDigit = true ∧ castDigits cs 0 ≤ maxv then
    some (castDigits cs 0)
  else none

/-- `datetime.strptime(s, '%H:%M:%S').time()` as seconds after midnight;
`none` models the `ValueError` raised on any non-matching string. -/
def strptimeHMS (s : String) : Option Nat :=
  match splitChar ':' s.data with
  | [h, m, sec] =>
    match parseField h 23, parseField m 59, parseField sec 59 with
    | some hv, some mv, some sv => some (hv * 3600 + mv * 60 + sv)
    | _, _, _ => none
  | _ => none

/-- Gregorian leap-year rule, as implemented by Python's `datetime`. -/
def isLeapYear (y : Nat) : Bool :=
  (y % 4 = 0 && y % 100 ≠ 0) || y % 400 = 0

/-- Number of days in a month, as implemented by Python's `datetime`. -/
def daysInMonth (y m : Nat) : Nat :=
  if m = 2 then (if isLeapYear y then 29 else 28)
  else if m = 4 ∨ m = 6 ∨ m = 9 ∨ m = 11 then 30
  else 31

/-- `datetime.strptime(s, '%Y-%m-%d')` as a `(year, month, day)` triple;
`none` models the `ValueError` on any string the format rejects
(`%Y` is exactly four digits, `%m`/`%d` one or two digits in range, and
the `datetime` constructor rejects day numbers past the month's end and
year 0). -/
def strptimeYMD (s : String) : Option (Nat × Nat × Nat) :=
  match splitChar '-' s.data with
  | [yc, mc, dc] =>
    if yc.length = 4 ∧ yc.all Char.isDigit = true then
      let y := castDigits yc 0
      match parseField mc 12, parseField dc 31 with
      | some m, some d =>
        if 1 ≤ y ∧ 1 ≤ m ∧ 1 ≤ d ∧ d ≤ daysInMonth y m then some (y, m, d) else none
      | _, _ => none
    else none
  | _ => none

/-- A date string in canonical ISO form: parsed by `strptimeYMD` and
rendered back with a four-digit year and two-digit month and day it is
unchanged. -/
def isCanonicalDate (s : String) : Bool :=
  match strptimeYMD s with
  | some (y, m, d) => decide (s = pad4 y ++ "-" ++ pad2 m ++ "-" ++ pad2 d)
  | none => false

/-- Python slicing `s[a:b]` (for `0 ≤ a ≤ b`). -/
def pySlice (s : String) (a b : Nat) : String :=
  String.mk ((s.data.drop a).take (b - a))

/-- A row of the `integrated_punch` table as read by the evaluators:
identity columns plus the ordered 刷卡時間1.. time columns (`none` for a
SQL `NULL`). -/
structure IRow where
  account : String
  name : String
  card : String
  classname : String
  date : String
  times : List (Option String)
deriving DecidableEq

/-- One emitted eligibility entry `[卡號, 公務帳號, 姓名, 月份, 日期]`. -/
structure MealRec where
  card : String
  account : String
  name : String
  month : String
  day : String
deriving DecidableEq

/-- The Python `f"{s[:2]}:{s[2:4]}:{s[4:6]}"` repair applied by
`check_night_meal` to values of length 6. -/
def fixColonLen6 (s : String) : String :=
  if s.length = 6 then
    String.mk (s.data.take 2) ++ ":" ++ String.mk ((s.data.drop 2).take 2) ++ ":" ++
      String.mk ((s.data.drop 4).take 2)
  else s

/-- The loop body of `check_night_meal` over the (already reversed) time
columns: return on the first non-null value; `none` models the
`ValueError` that `datetime.strptime` raises on a malformed value. -/
def scanTimes (thr : Nat) : List (Option String) → Option Bool
  | [] => some false
  | none :: rest => scanTimes thr rest
  | some s :: _ => (strptimeHMS (fixColonLen6 s)).map (fun t => decide (thr < t))

/-- `check_night_meal(row, time_columns, night_meal_threshold)`: iterate
the time columns in reverse, and on the first non-null value parse it
(after the length-6 colon repair) and compare strictly against the
threshold; all-null rows give `False`.  The threshold is in seconds
after midnight (`parse_time('22:00:00')` is 79200). -/
def check_night_meal (times : List (Option String)) (thr : Nat) : Option Bool :=
  scanTimes thr times.reverse

/-- The "last punch of the day" of a row: the first non-null value when
the time columns are scanned from last to first. -/
def lastNonNull (times : List (Option String)) : Option String :=
  times.reverse.findSome? id

/-- Record built by the substring-slicing evaluator variant:
`月份 = date[5:7]`, `日期 = date[8:10]`. -/
def mkRec (r : IRow) : MealRec :=
  ⟨r.card, r.account, r.name, pySlice r.date 5 7, pySlice r.date 8 10⟩

/-- Record built by the datetime-parsing evaluator variant:
`月份 = f"{date_obj.month:02}"`, `日期 = f"{date_obj.day:02}"`. -/
def mkRecHtml (m d : Nat) (r : IRow) : MealRec :=
  ⟨r.card, r.account, r.name, pad2 m, pad2 d⟩

/-- Loop of `process_night_meal_data` (02 夜點清算csv, the variant that
slices month and day out of 刷卡日期 by fixed offsets).  `seen` is the
`processed_dates` dict, represented as the set of `(公務帳號, 刷卡日期)`
pairs already emitted; `none` models an uncaught exception from
`check_night_meal`. -/
def processAux (thr : Nat) (seen : List (String × String)) : List IRow → Option (List MealRec)
  | [] => some []
  | r :: rs =>
    (check_night_meal r.times thr).bind (fun elig =>
      if elig = true ∧ (r.account, r.date) ∉ seen then
        (processAux thr ((r.account, r.date) :: seen) rs).map (fun out => mkRec r :: out)
      else
        processAux thr seen rs)

/-- `process_night_meal_data` (substring-slicing variant) on the ordered
rows of one shift class. -/
def process_night_meal_data (thr : Nat) (rows : List IRow) : Option (List MealRec) :=
  processAux thr [] rows

/-- Loop of `process_night_meal_data` in 夜點html.py: the same traversal
but month and day come from `datetime.strptime(date_str, '%Y-%m-%d')`,
and a row whose date fails to parse is skipped (`continue`). -/
def processHtmlAux (thr : Nat) (seen : List (String × String)) :
    List IRow → Option (List MealRec)
  | [] => some []
  | r :: rs =>
    Option.elim (strptimeYMD r.date) (processHtmlAux thr seen rs) (fun ymd =>
      (check_night_meal r.times thr).bind (fun elig =>
        if elig = true ∧ (r.account, r.date) ∉ seen then
          (processHtmlAux thr ((r.account, r.date) :: seen) rs).map
            (fun out => mkRecHtml ymd.2.1 ymd.2.2 r :: out)
        else
          processHtmlAux thr seen rs))

/-- `process_night_meal_data` (datetime-parsing variant, 夜點html.py). -/
def process_night_meal_data_html (thr : Nat) (rows : List IRow) : Option (List MealRec) :=
  processHtmlAux thr [] rows

/-- The trace of rows that emit a record during the evaluator's
traversal: an eligible row whose `(公務帳號, 刷卡日期)` key is not yet in
the dedup state is kept and its key marked seen. -/
def emittedAux (thr : Nat) (seen : List (String × String)) : List IRow → List IRow
  | [] => []
  | r :: rs =>
    if check_night_meal r.times thr = some true ∧ (r.account, r.date) ∉ seen then
      r :: emittedAux thr ((r.account, r.date) :: seen) rs
    else
      emittedAux thr seen rs

/-- Rows that emit a record, starting from an empty dedup state. -/
def emittedRows (thr : Nat) (rows : List IRow) : List IRow :=
  emittedAux thr [] rows

/-- Boolean eligibility of a single row (its `check_night_meal` result is
`True`, with no exception). -/
def eligB (thr : Nat) (r : IRow) : Bool :=
  check_night_meal r.times thr == some true

/-- Boolean key test for a `(公務帳號, 刷卡日期)` pair. -/
def keyB (a d : String) (r : IRow) : Bool :=
  r.account == a && r.date == d

/-- One group of the Integrator's `GROUP BY 公務帳號, 刷卡日期, 班別`
query: the joined roster fields (nullable, from the `LEFT JOIN`) and the
group's non-null 刷卡時間 values in original row order — the sequence
`GROUP_CONCAT` joins with commas. -/
structure PGroup where
  account : Option String
  card : Option String
  name : Option String
  classname : Option String
  date : Option String
  times : List String
deriving DecidableEq

/-- SQLite `GROUP_CONCAT`: comma-join the values, `NULL` when the group
has no non-null value. -/
def joinSep (sep : Char) : List (List Char) → List Char
  | [] => []
  | [l] => l
  | l :: ls => l ++ sep :: joinSep sep ls

/-- The 刷卡時間 column of the grouped query result. -/
def group_concat (g : PGroup) : Option String :=
  if g.times.isEmpty then none
  else some (String.mk (joinSep ',' (g.times.map String.data)))

/-- `integrated_data['刷卡時間'].str.split(',', expand=True)` restricted
to one row: the comma-separated pieces, or nothing for a SQL `NULL`
(pandas pads such a row with nulls across the full width). -/
def partsOf (g : PGroup) : List (Option String) :=
  match group_concat g with
  | none => []
  | some t => (splitChar ',' t.data).map (fun cs => some (String.mk cs))

/-- Number of split pieces a group contributes. -/
def numParts (g : PGroup) : Nat := (partsOf g).length

/-- `max_splits = split_times.shape[1]`: the widest split across all
rows of `integrated_data`. -/
def maxSplits (groups : List PGroup) : Nat :=
  groups.foldr (fun g acc => max (numParts g) acc) 0

/-- Right-pad a pivoted time list with nulls to width `n` (pandas'
`expand=True` padding). -/
def padTo (n : Nat) (l : List (Option String)) : List (Option String) :=
  l ++ List.replicate (n - l.length) none

/-- One row of `split_times` after `expand=True`: the group's pieces
padded to the global width. -/
def expandedTimes (groups : List PGroup) (g : PGroup) : List (Option String) :=
  padTo (maxSplits groups) (partsOf g)

/-- `new_columns.dropna(axis=1, how='all')`: the column positions kept
(those with at least one non-null entry). -/
def keptTimeCols (groups : List PGroup) : List Nat :=
  (List.range (maxSplits groups)).filter
    (fun j => groups.any (fun g => ((expandedTimes groups g).getD j none).isSome))

/-- The 刷卡時間1.. values of one output row after the all-null columns
are dropped. -/
def finalTimes (groups : List PGroup) (g : PGroup) : List (Option String) :=
  (keptTimeCols groups).map (fun j => (expandedTimes groups g).getD j none)

/-- One row of the `integrated_punch` table produced by `integrate_data`. -/
structure IPRow where
  account : Option String
  card : Option String
  name : Option String
  classname : Option String
  date : Option String
  times : List (Option String)
deriving DecidableEq

/-- The pivot step of `integrate_data` (01 資料整理): split each group's
comma-joined 刷卡時間 into positional columns, pad to the global maximum
width, drop all-null columns, and keep the identity columns. -/
def integrate_data (groups : List PGroup) : List IPRow :=
  groups.map (fun g =>
    ⟨g.account, g.card, g.name, g.classname, g.date, finalTimes groups g⟩)

/-- Maximum punch count of any group — the quantity the spec says the
pivot width equals. -/
def maxPunches (groups : List PGroup) : Nat :=
  groups.foldr (fun g acc => max g.times.length acc) 0

/-- A spreadsheet cell (`none` for an empty/NaN cell). -/
abbrev Cell := Option String

/-- A sheet as a grid of rows, as read from an Excel file. -/
abbrev Grid := List (List Cell)

/-- A pandas `DataFrame` with its column labels. -/
structure DF where
  headers : List String
  rows : List (List Cell)
deriving DecidableEq

/-- `pd.to_numeric(s, errors='coerce')` succeeding on a string: optional
sign, then digits with at most one decimal point (and at least one
digit), after stripping surrounding spaces. -/
def isNumStr (cs : List Char) : Bool :=
  match cs with
  | [] => false
  | _ =>
    let cs1 := if cs.head? = some '-' ∨ cs.head? = some '+' then cs.tail else cs
    let intPart := cs1.takeWhile Char.isDigit
    let rest := cs1.dropWhile Char.isDigit
    match rest with
    | [] => !intPart.isEmpty
    | '.' :: frac => (!intPart.isEmpty || !frac.isEmpty) && frac.all Char.isDigit
    | _ => false

/-- `pd.to_numeric(df['序號'], errors='coerce').notnull()` on one cell. -/
def isNumericCell : Cell → Bool
  | none => false
  | some s =>
    isNumStr ((((s.data.dropWhile (fun c => c = ' ')).reverse.dropWhile
      (fun c => c = ' ')).reverse))

/-- Positions of the non-null header cells (`df.columns.notna()`). -/
def colIndices (hdr : List Cell) : List Nat :=
  (List.range hdr.length).filter (fun j => (hdr.getD j none).isSome)

/-- The per-sheet cleaning of `clean_and_store_excel` (01 資料整理):
skip 4 rows plus the pandas header row, promote the next row to column
labels, drop null-labelled columns, filter rows whose 序號 cell is not
numeric, drop all-empty columns, and stringify the 刷卡日期/刷卡時間
columns (`astype(str)` renders an empty cell as `"nan"`). -/
def cleanSheet (g : Grid) : DF :=
  let body := g.drop 5
  let hdrRow : List Cell := body.headD []
  let rows0 := body.drop 1
  let keep := colIndices hdrRow
  let headers := keep.map (fun j => (hdrRow.getD j none).getD "")
  let rows1 := rows0.map (fun r => keep.map (fun j => r.getD j none))
  let rows2 :=
    if headers.contains "序號" then
      let i := headers.indexOf "序號"
      rows1.filter (fun r => isNumericCell (r.getD i none))
    else rows1
  let keep2 := (List.range headers.length).filter
    (fun j => rows2.any (fun r => (r.getD j none).isSome))
  let headers2 := keep2.map (fun j => headers.getD j "")
  let rows3 := rows2.map (fun r => keep2.map (fun j => r.getD j none))
  let rows4 := rows3.map (fun r => (List.range headers2.length).map (fun j =>
    if headers2.getD j "" = "刷卡日期" ∨ headers2.getD j "" = "刷卡時間" then
      some ((r.getD j none).getD "nan")
    else r.getD j none))
  ⟨headers2, rows4⟩

/-- The sheet loop of `clean_and_store_excel`: running row total and the
current `punch` table.  Each sheet's `to_sql(..., if_exists='replace')`
overwrites the table; the inner `Path(file_path).exists()` check skips a
sheet when the workbook file is gone. -/
def cseGo (fileExists : Bool) : Nat → Option DF → List Grid → Nat × Option DF
  | total, table, [] => (total, table)
  | total, table, g :: rest =>
    if fileExists then
      cseGo fileExists (total + (cleanSheet g).rows.length) (some (cleanSheet g)) rest
    else
      cseGo fileExists total table rest

/-- `clean_and_store_excel(excel_data, file_path, conn)`: returns the
cumulative processed row count and the final `punch` table contents. -/
def clean_and_store_excel (fileExists : Bool) (sheets : List Grid) (punch : Option DF) :
    Nat × Option DF :=
  cseGo fileExists 0 punch sheets

/-- Outcome of one run of `main` in 01 資料整理. -/
inductive RunOutcome where
  | abortedMissingPunch : RunOutcome
  | raisedFileNotFound : RunOutcome
  | completed : Nat → Option DF → List (List Cell) → RunOutcome
deriving DecidableEq

/-- The roster sheet loop of `main`: each sheet is appended as-is to
`shift_class` (read with the default header row) when the roster file
still exists at the loop's check. -/
def rosterLoad (fileExistsInLoop : Bool) (sheets : List Grid) (total0 : Nat) :
    Nat × List (List Cell) :=
  sheets.foldl
    (fun acc g =>
      if fileExistsInLoop then (acc.1 + (g.drop 1).length, acc.2 ++ g.drop 1)
      else acc)
    (total0, [])

/-- The file-handling flow of `main` (01 資料整理): a missing punch
workbook is checked up front and ends the run with a logged error; the
roster workbook is opened with `pd.ExcelFile` *before* the per-sheet
existence check, so a missing roster file raises an uncaught
`FileNotFoundError` there; the per-sheet check can only skip sheets when
the file disappears between opening and the loop. -/
def main_run (punchExists : Bool) (punchSheets : List Grid)
    (rosterExistsAtOpen : Bool) (rosterExistsInLoop : Bool) (rosterSheets : List Grid) :
    RunOutcome :=
  if punchExists = false then RunOutcome.abortedMissingPunch
  else
    let pr := clean_and_store_excel punchExists punchSheets none
    if rosterExistsAtOpen = false then RunOutcome.raisedFileNotFound
    else
      let rr := rosterLoad rosterExistsInLoop rosterSheets pr.1
      RunOutcome.completed rr.1 pr.2 rr.2

/-- Sample `integrated_punch` row: two punches, the last at 22:30:00. -/
def rowA : IRow :=
  { account := "A1", name := "王", card := "C1", classname := "早班",
    date := "2024-05-20", times := [some "08:00:00", some "22:30:00"] }

/-- Sample `integrated_punch` row whose last punch is the raw 6-digit
string `220001` (22:00:01 after the colon repair). -/
def rowB : IRow :=
  { account := "B2", name := "林", card := "C2", classname := "早班",
    date := "2024-01-05", times := [some "073000", some "220001"] }

/-- Sample group with two punches. -/
def grpA : PGroup :=
  { account := some "A1", card := some "C1", name := some "王",
    classname := some "早班", date := some "2024-05-20",
    times := ["08:00:00", "22:30:00"] }

/-- Sample group with one punch. -/
def grpB : PGroup :=
  { account := some "B2", card := some "C2", name := some "林",
    classname := some "早班", date := some "2024-05-21",
    times := ["09:00:00"] }

/-- Sample punch sheet: four skipped rows, the pandas header row, the
promoted header row, and one data row. -/
def sheetA : Grid :=
  [[], [], [], [], [some "x"],
   [some "序號", some "公務帳號", some "刷卡日期", some "刷卡時間"],
   [some "1", some "A1", some "1130520", some "2230"]]

/-- Sample punch sheet with two data rows. -/
def sheetB : Grid :=
  [[], [], [], [], [some "x"],
   [some "序號", some "公務帳號", some "刷卡日期", some "刷卡時間"],
   [some "1", some "A1", some "1130520", some "0800"],
   [some "2", some "B2", some "1130521", some "2215"]]

/-- The reverse scan of `check_night_meal` evaluates the first non-null
value found (`List.findSome? id`) and ignores everything after it. -/
theorem scanTimes_eq_findSome (thr : Nat) (l : List (Option String)) :
    scanTimes thr l =
      match l.findSome? id with
      | none => some false
      | some s => (strptimeHMS (fixColonLen6 s)).map (fun t => decide (thr < t)) := by
  induction l with
  | nil => rfl
  | cons o rest ih =>
    cases o with
    | none => exact ih
    | some s => rfl

/-- C2: `check_night_meal` selects the last punch of the day by scanning
the time columns from last to first and taking the first non-null value
(`lastNonNull`); its verdict is a function of that value alone, and a row
whose time columns are all null yields `False` (no eligibility). -/
theorem claim2_last_punch_scan (thr : Nat) (times : List (Option String)) :
    ((∀ o ∈ times, o = none) → check_night_meal times thr = some false) ∧
    (∀ s, lastNonNull times = some s →
      check_night_meal times thr
        = (strptimeHMS (fixColonLen6 s)).map (fun t => decide (thr < t))) := by
  constructor
  · intro h
    have hnone : times.reverse.findSome? id = none := by
      rw [List.findSome?_eq_none_iff]
      intro o ho
      exact h o (List.mem_reverse.mp ho)
    rw [check_night_meal, scanTimes_eq_findSome, hnone]
  · intro s hs
    rw [lastNonNull] at hs
    rw [check_night_meal, scanTimes_eq_findSome, hs]

/-- Witness for C2: an all-null row is not eligible, and a row whose
last non-null column is 23:10:05 is eligible for the 22:00:00 threshold. -/
theorem claim2_witness :
    check_night_meal [none, none] 79200 = some false ∧
    check_night_meal [some "21:00:00", some "23:10:05", none] 79200 = some true := by
  constructor
  · exact (claim2_last_punch_scan 79200 [none, none]).1 (by decide)
  · have h := (claim2_last_punch_scan 79200 [some "21:00:00", some "23:10:05", none]).2
      "23:10:05" (by decide)
    rw [h]; decide

/-- C1: the eligibility test is strict for the 22:00:00 threshold
(79200 seconds): a row whose last punch is exactly `22:00:00` is not
eligible, and a row whose last punch parses to any time strictly after
79200 seconds (22:00:01 or later) is eligible. -/
theorem claim1_strict_threshold (times : List (Option String)) (s : String)
    (h : lastNonNull times = some s) :
    (s = "22:00:00" → check_night_meal times 79200 = some false) ∧
    (∀ t, strptimeHMS (fixColonLen6 s) = some t → 79200 < t →
      check_night_meal times 79200 = some true) := by
  have hch : check_night_meal times 79200
      = (strptimeHMS (fixColonLen6 s)).map (fun t => decide (79200 < t)) := by
    rw [lastNonNull] at h
    rw [check_night_meal, scanTimes_eq_findSome, h]
  constructor
  · intro hs
    subst hs
    rw [hch]
    decide
  · intro t ht hlt
    rw [hch, ht]
    simp [hlt]

/-- Witness for C1: a last punch of `22:00:01` (79201 seconds) is
eligible. -/
theorem claim1_witness :
    check_night_meal [some "08:00:00", some "22:00:01"] 79200 = some true :=
  (claim1_strict_threshold [some "08:00:00", some "22:00:01"] "22:00:01" (by decide)).2
    79201 (by decide) (by decide)

/-- `String.data` distributes over append. -/
theorem str_data_append (a b : String) : (a ++ b).data = a.data ++ b.data := rfl

/-- `String.length` is the length of the character list. -/
theorem str_length_data (s : String) : s.length = s.data.length := rfl

/-- `String.length` distributes over append. -/
theorem str_length_append (a b : String) : (a ++ b).length = a.length + b.length := by
  rw [str_length_data, str_data_append, List.length_append]
  rfl

/-- Digit characters are digits. -/
theorem dChar_isDigit (n : Nat) (h : n < 10) : (dChar n).isDigit = true := by
  interval_cases n <;> decide

/-- Numeric value of a digit character. -/
theorem dChar_toNat (n : Nat) (h : n < 10) : (dChar n).toNat = 48 + n := by
  interval_cases n <;> decide

/-- Digit characters are not whitespace. -/
theorem dChar_not_ws (n : Nat) (h : n < 10) : (dChar n).isWhitespace = false := by
  interval_cases n <;> decide

/-- Digit characters are not the minus sign. -/
theorem dChar_ne_dash (n : Nat) (h : n < 10) : dChar n ≠ '-' := by
  interval_cases n <;> decide

/-- Digit characters are not the plus sign. -/
theorem dChar_ne_plus (n : Nat) (h : n < 10) : dChar n ≠ '+' := by
  interval_cases n <;> decide

/-- `castDigits` on three digit characters computes the decimal value. -/
theorem castDigits_three (a b c acc : Nat) (ha : a < 10) (hb : b < 10) (hc : c < 10) :
    castDigits [dChar a, dChar b, dChar c] acc = 10 * (10 * (10 * acc + a) + b) + c := by
  simp only [castDigits, dChar_isDigit _ ha, dChar_isDigit _ hb, dChar_isDigit _ hc,
    dChar_toNat _ ha, dChar_toNat _ hb, dChar_toNat _ hc, if_true]
  omega

/-- Branch lemma: `convert_time_format` on a length-4 string. -/
theorem convert_time_format_len4 (s : String) (h : s.length = 4) :
    convert_time_format s = sqliteSubstr s 1 2 ++ ":" ++ sqliteSubstr s 3 2 ++ ":00" := by
  rw [convert_time_format, if_pos h]

/-- Branch lemma: `convert_time_format` on any other length. -/
theorem convert_time_format_len_ne (s : String) (h : s.length ≠ 4) :
    convert_time_format s = s := by
  rw [convert_time_format, if_neg h]

/-- C4 counterexample: the claim's own example input `"113-05-20"` (the
dashed `<1-3 digits>-MM-DD` shape) has length 9, so the length-7 SQL
`CASE` passes it through unchanged — it does not become `"2024-05-20"`. -/
theorem claim4_counterexample :
    convert_date_format "113-05-20" = "113-05-20" ∧
    convert_date_format "113-05-20" ≠ "2024-05-20" := by
  refine ⟨rfl, ?_⟩
  decide

/-- C4 (amended): the ROC shape the code recognises is the *undashed*
7-character `YYYMMDD`; such a string becomes `(YYY + 1911)-MM-DD`, and
every string of any other length passes through unchanged. -/
theorem claim4_roc_conversion (y m d : Nat) (hy : y < 1000) (hm : m < 100) (hd : d < 100) :
    convert_date_format (pad3 y ++ pad2 m ++ pad2 d)
        = toString ((y : Int) + 1911) ++ "-" ++ pad2 m ++ "-" ++ pad2 d ∧
    ∀ s : String, s.length ≠ 7 → convert_date_format s = s := by
  constructor
  · have hlen : (pad3 y ++ pad2 m ++ pad2 d).length = 7 := rfl
    have ha : y / 100 % 10 < 10 := Nat.mod_lt _ (by norm_num)
    have hb : y / 10 % 10 < 10 := Nat.mod_lt _ (by norm_num)
    have hc : y % 10 < 10 := Nat.mod_lt _ (by norm_num)
    have hsub2 : sqliteSubstr (pad3 y ++ pad2 m ++ pad2 d) 4 2 = pad2 m := rfl
    have hsub3 : sqliteSubstr (pad3 y ++ pad2 m ++ pad2 d) 6 2 = pad2 d := rfl
    have hcast : sqliteCastInt (sqliteSubstr (pad3 y ++ pad2 m ++ pad2 d) 1 3) = (y : Int) := by
      show sqliteCastInt
        (String.mk [dChar (y / 100 % 10), dChar (y / 10 % 10), dChar (y % 10)]) = (y : Int)
      rw [sqliteCastInt]
      simp only [List.dropWhile_cons, dChar_not_ws _ ha, Bool.false_eq_true, if_false]
      rw [if_neg (dChar_ne_dash _ ha), if_neg (dChar_ne_plus _ ha)]
      rw [castDigits_three _ _ _ _ ha hb hc]
      omega
    rw [convert_date_format, if_pos hlen, hsub2, hsub3, hcast]
  · intro s hs
    rw [convert_date_format, if_neg hs]

/-- Witness for C4: `"1130520"` becomes `"2024-05-20"`. -/
theorem claim4_witness :
    convert_date_format (pad3 113 ++ pad2 5 ++ pad2 20)
      = toString ((113 : Int) + 1911) ++ "-" ++ pad2 5 ++ "-" ++ pad2 20 :=
  (claim4_roc_conversion 113 5 20 (by decide) (by decide) (by decide)).1

/-- C5 counterexample: the 6-digit string `"221530"` is *not* converted
to `"22:15:30"` by the stored-table time pass — the SQL `CASE` only
rewrites length-4 values, so it passes through unchanged. -/
theorem claim5_counterexample :
    convert_time_format "221530" = "221530" ∧
    convert_time_format "221530" ≠ "22:15:30" := by
  refine ⟨rfl, ?_⟩
  decide

/-- C5 (amended): the pass maps every 4-character value `c1c2c3c4` (in
particular a 4-digit `HHMM`) to `c1c2:c3c4:00`, and passes every string
of any other length through unchanged — including 6-digit `HHMMSS`
strings, which this pass does not touch. -/
theorem claim5_time_conversion (s : String) :
    (∀ c1 c2 c3 c4 : Char, s.data = [c1, c2, c3, c4] →
      (convert_time_format s).data = [c1, c2, ':', c3, c4, ':', '0', '0']) ∧
    (s.length ≠ 4 → convert_time_format s = s) := by
  constructor
  · intro c1 c2 c3 c4 h
    have hlen : s.length = 4 := by rw [str_length_data, h]; rfl
    have e1 : sqliteSubstr s 1 2 = String.mk [c1, c2] := by
      simp [sqliteSubstr, h]
    have e2 : sqliteSubstr s 3 2 = String.mk [c3, c4] := by
      simp [sqliteSubstr, h]
    rw [convert_time_format_len4 s hlen, e1, e2]
    rfl
  · exact convert_time_format_len_ne s

/-- Witness for C5: `"2230"` becomes `"22:30:00"`. -/
theorem claim5_witness :
    (convert_time_format "2230").data = ['2', '2', ':', '3', '0', ':', '0', '0'] :=
  (claim5_time_conversion "2230").1 '2' '2' '3' '0' (by decide)

/-- C6: the stored-table time pass is idempotent — applying it twice
gives the same result as applying it once (a length-4 input becomes a
length-8 string, which the second application leaves alone; every other
input is untouched both times). -/
theorem claim6_idempotent (s : String) :
    convert_time_format (convert_time_format s) = convert_time_format s := by
  by_cases h : s.length = 4
  · have h8 : (convert_time_format s).length = 8 := by
      rw [convert_time_format_len4 s h]
      rw [str_length_append, str_length_append, str_length_append]
      have t1 : (sqliteSubstr s 1 2).length = 2 := by
        rw [str_length_data]
        show ((s.data.drop 0).take 2).length = 2
        rw [List.length_take, List.length_drop]
        rw [str_length_data] at h
        omega
      have t2 : (sqliteSubstr s 3 2).length = 2 := by
        rw [str_length_data]
        show ((s.data.drop 2).take 2).length = 2
        rw [List.length_take, List.length_drop]
        rw [str_length_data] at h
        omega
      rw [t1, t2]
      rfl
    rw [convert_time_format_len_ne _ (by rw [h8]; omega)]
  · rw [convert_time_format_len_ne s h]
    exact convert_time_format_len_ne s h

/-- When the evaluator's traversal completes without an exception, its
output is exactly the emitted-row trace rendered as records. -/
theorem processAux_eq_emitted (thr : Nat) :
    ∀ (rows : List IRow) (seen : List (String × String)) (out : List MealRec),
      processAux thr seen rows = some out →
      out = (emittedAux thr seen rows).map mkRec := by
  intro rows
  induction rows with
  | nil =>
    intro seen out h
    simp only [processAux, Option.some.injEq] at h
    subst h
    rfl
  | cons r rs ih =>
    intro seen out h
    simp only [processAux] at h
    cases hc : check_night_meal r.times thr with
    | none => rw [hc] at h; exact absurd h (by simp)
    | some elig =>
      rw [hc, Option.some_bind] at h
      by_cases hcond : elig = true ∧ (r.account, r.date) ∉ seen
      · rw [if_pos hcond] at h
        cases hrec : processAux thr ((r.account, r.date) :: seen) rs with
        | none => rw [hrec] at h; exact absurd h (by simp)
        | some out' =>
          rw [hrec] at h
          simp only [Option.map_some', Option.some.injEq] at h
          subst h
          have hct : check_night_meal r.times thr = some true := by rw [hc, hcond.1]
          simp only [emittedAux]
          rw [if_pos ⟨hct, hcond.2⟩, List.map_cons]
          exact congrArg (mkRec r :: ·) (ih _ _ hrec)
      · rw [if_neg hcond] at h
        simp only [emittedAux]
        rw [if_neg (fun hcontra => by
          apply hcond
          refine ⟨?_, hcontra.2⟩
          have := hcontra.1
          rw [hc] at this
          exact Option.some.inj this)]
        exact ih _ _ h

/-- The emitted-row trace keeps, for each `(公務帳號, 刷卡日期)` key not
already in the dedup state, exactly the first eligible row with that key. -/
theorem emittedAux_filter_key (thr : Nat) (a d : String) :
    ∀ (rows : List IRow) (seen : List (String × String)),
      (emittedAux thr seen rows).filter (keyB a d)
        = if (a, d) ∈ seen then []
          else ((rows.filter (eligB thr)).filter (keyB a d)).take 1 := by
  intro rows
  induction rows with
  | nil =>
    intro seen
    simp [emittedAux]
  | cons r rs ih =>
    intro seen
    simp only [emittedAux]
    by_cases hcond : check_night_meal r.times thr = some true ∧ (r.account, r.date) ∉ seen
    · rw [if_pos hcond]
      have helig : eligB thr r = true := by simp [eligB, hcond.1]
      by_cases hkey : keyB a d r = true
      · have hka : r.account = a ∧ r.date = d := by
          simpa [keyB] using hkey
        rw [List.filter_cons_of_pos hkey, ih ((r.account, r.date) :: seen)]
        have hmem : (a, d) ∈ (r.account, r.date) :: seen := by
          rw [hka.1, hka.2]
          exact List.mem_cons_self _ _
        rw [if_pos hmem]
        have hnot : (a, d) ∉ seen := by
          rw [← hka.1, ← hka.2]
          exact hcond.2
        rw [if_neg hnot, List.filter_cons_of_pos helig, List.filter_cons_of_pos hkey]
        rfl
      · have hkey' : ¬ (keyB a d r = true) := hkey
        rw [List.filter_cons_of_neg hkey', ih ((r.account, r.date) :: seen)]
        have hseen_iff : ((a, d) ∈ (r.account, r.date) :: seen) ↔ (a, d) ∈ seen := by
          constructor
          · intro hm
            rcases List.mem_cons.mp hm with he | hm'
            · exfalso
              apply hkey
              simp only [Prod.mk.injEq] at he
              simp [keyB, he.1.symm, he.2.symm]
            · exact hm'
          · exact fun hm => List.mem_cons_of_mem _ hm
        rw [if_congr hseen_iff rfl rfl, List.filter_cons_of_pos helig,
          List.filter_cons_of_neg hkey']
    · rw [if_neg hcond, ih seen]
      by_cases hm : (a, d) ∈ seen
      · rw [if_pos hm, if_pos hm]
      · rw [if_neg hm, if_neg hm]
        by_cases helig : eligB thr r = true
        · have hct : check_night_meal r.times thr = some true := by
            simpa [eligB] using helig
          have hmem : (r.account, r.date) ∈ seen := by
            by_contra hnm
            exact hcond ⟨hct, hnm⟩
          have hkey : ¬ (keyB a d r = true) := by
            intro hk
            have hka : r.account = a ∧ r.date = d := by simpa [keyB] using hk
            exact hm (hka.1 ▸ hka.2 ▸ hmem)
          rw [List.filter_cons_of_pos helig, List.filter_cons_of_neg hkey]
        · rw [List.filter_cons_of_neg helig]

/-- C3: when the evaluator finishes, its output is the emitted-row trace
rendered as records, and for every `(公務帳號, 刷卡日期)` pair the trace
keeps exactly the *first* eligible row carrying that key (so at most one
record exists per account and date, first-occurrence-wins). -/
theorem claim3_dedup_first_wins (thr : Nat) (rows : List IRow) (out : List MealRec)
    (h : process_night_meal_data thr rows = some out) :
    out = (emittedRows thr rows).map mkRec ∧
    ∀ a d, (emittedRows thr rows).filter (keyB a d)
        = ((rows.filter (eligB thr)).filter (keyB a d)).take 1 := by
  constructor
  · exact processAux_eq_emitted thr rows [] out h
  · intro a d
    have hk := emittedAux_filter_key thr a d rows []
    simpa [emittedRows] using hk

/-- Witness for C3: the same row traversed twice (a roster-duplication
double) emits a single record, the one from the first occurrence. -/
theorem claim3_witness :
    [mkRec rowA] = (emittedRows 79200 [rowA, rowA]).map mkRec ∧
    (emittedRows 79200 [rowA, rowA]).filter (keyB "A1" "2024-05-20")
      = (([rowA, rowA].filter (eligB 79200)).filter (keyB "A1" "2024-05-20")).take 1 :=
  ⟨(claim3_dedup_first_wins 79200 [rowA, rowA] [mkRec rowA] (by decide)).1,
   (claim3_dedup_first_wins 79200 [rowA, rowA] [mkRec rowA] (by decide)).2 "A1" "2024-05-20"⟩

/-- On rows whose dates are canonical ISO strings, the datetime-parsing
loop and the substring-slicing loop coincide step by step. -/
theorem processHtmlAux_eq_processAux (thr : Nat) :
    ∀ (rows : List IRow) (seen : List (String × String)),
      (∀ r ∈ rows, isCanonicalDate r.date = true) →
      processHtmlAux thr seen rows = processAux thr seen rows := by
  intro rows
  induction rows with
  | nil => intro seen _; rfl
  | cons r rs ih =>
    intro seen h
    have hr := h r (List.mem_cons_self _ _)
    cases hp : strptimeYMD r.date with
    | none =>
      rw [isCanonicalDate, hp] at hr
      exact absurd hr (by simp)
    | some ymd =>
      obtain ⟨y, m, d⟩ := ymd
      have hdate : r.date = pad4 y ++ "-" ++ pad2 m ++ "-" ++ pad2 d := by
        simpa [isCanonicalDate, hp] using hr
      have hmk : mkRecHtml m d r = mkRec r := by
        have h1 : pySlice r.date 5 7 = pad2 m := by rw [hdate]; rfl
        have h2 : pySlice r.date 8 10 = pad2 d := by rw [hdate]; rfl
        simp [mkRecHtml, mkRec, h1, h2]
      have ih1 := ih ((r.account, r.date) :: seen)
        (fun r' hr' => h r' (List.mem_cons_of_mem _ hr'))
      have ih2 := ih seen (fun r' hr' => h r' (List.mem_cons_of_mem _ hr'))
      simp only [processHtmlAux, processAux, hp, Option.elim_some, ih1, ih2, hmk]

/-- C10: whenever every 刷卡日期 in the traversed rows is a valid
canonical `YYYY-MM-DD` string, the two duplicated evaluator variants —
datetime parsing vs fixed-offset substring slicing — return identical
record lists. -/
theorem claim10_variants_agree (thr : Nat) (rows : List IRow)
    (h : ∀ r ∈ rows, isCanonicalDate r.date = true) :
    process_night_meal_data_html thr rows = process_night_meal_data thr rows :=
  processHtmlAux_eq_processAux thr rows [] h

/-- Witness for C10: the two variants agree on a concrete two-row
dataset with canonical dates. -/
theorem claim10_witness :
    process_night_meal_data_html 79200 [rowA, rowB]
      = process_night_meal_data 79200 [rowA, rowB] :=
  claim10_variants_agree 79200 [rowA, rowB] (by decide)

/-- The sheet loop's running total accumulates every processed sheet's
cleaned row count. -/
theorem cseGo_count (sheets : List Grid) :
    ∀ (total : Nat) (table : Option DF),
      (cseGo true total table sheets).1
        = total + (sheets.map (fun s => (cleanSheet s).rows.length)).sum := by
  induction sheets with
  | nil =>
    intro total table
    simp [cseGo]
  | cons g rest ih =>
    intro total table
    have hstep : cseGo true total table (g :: rest)
        = cseGo true (total + (cleanSheet g).rows.length) (some (cleanSheet g)) rest := by
      simp [cseGo]
    rw [hstep, ih]
    simp [Nat.add_assoc]

/-- After the sheet loop, the stored table is the cleaned content of the
last processed sheet (or the prior table if there was no sheet). -/
theorem cseGo_table (sheets : List Grid) :
    ∀ (total : Nat) (table : Option DF),
      (cseGo true total table sheets).2
        = match sheets.getLast? with
          | some g => some (cleanSheet g)
          | none => table := by
  induction sheets with
  | nil => intro total table; rfl
  | cons g rest ih =>
    intro total table
    have hstep : cseGo true total table (g :: rest)
        = cseGo true (total + (cleanSheet g).rows.length) (some (cleanSheet g)) rest := by
      simp [cseGo]
    cases rest with
    | nil => rw [hstep]; rfl
    | cons g2 rest2 =>
      rw [hstep, ih, List.getLast?_cons_cons]
      cases hg : (g2 :: rest2).getLast? with
      | none => exact absurd (List.getLast?_eq_none_iff.mp hg) (by simp)
      | some gl => rfl

/-- C8: for a punch workbook with at least two sheets, the `punch` table
ends up holding exactly the cleaned rows of the last processed sheet
(each sheet's `to_sql(..., if_exists='replace')` overwrites the prior
contents), while the returned row count is the cumulative sum of all
processed sheets' cleaned row counts. -/
theorem claim8_replace_not_append (sheets : List Grid) (punch0 : Option DF)
    (h2 : 2 ≤ sheets.length) :
    (clean_and_store_excel true sheets punch0).2 = sheets.getLast?.map cleanSheet ∧
    (clean_and_store_excel true sheets punch0).1
      = (sheets.map (fun s => (cleanSheet s).rows.length)).sum := by
  constructor
  · rw [clean_and_store_excel, cseGo_table]
    cases hg : sheets.getLast? with
    | none =>
      exfalso
      rw [List.getLast?_eq_none_iff] at hg
      rw [hg] at h2
      exact absurd h2 (by decide)
    | some g => rfl
  · rw [clean_and_store_excel, cseGo_count]
    exact Nat.zero_add _

/-- Witness for C8: a two-sheet workbook keeps only the second sheet's
cleaned rows while reporting the total across both sheets. -/
theorem claim8_witness :
    (clean_and_store_excel true [sheetA, sheetB] none).2
      = [sheetA, sheetB].getLast?.map cleanSheet ∧
    (clean_and_store_excel true [sheetA, sheetB] none).1
      = ([sheetA, sheetB].map (fun s => (cleanSheet s).rows.length)).sum :=
  claim8_replace_not_append [sheetA, sheetB] none (by decide)

/-- C9 (divergence evidence): in `main`, the roster workbook is opened
with `pd.ExcelFile` *before* any roster existence check, so a run in
which the punch workbook exists but the roster file is absent raises an
uncaught `FileNotFoundError` and the run aborts — it is not skipped with
a warning.  (A wholly absent punch workbook is indeed fatal, via the
early `return`.) -/
theorem claim9_roster_open_raises :
    main_run true [sheetB] false false [sheetA] = RunOutcome.raisedFileNotFound ∧
    main_run false [sheetB] true true [sheetA] = RunOutcome.abortedMissingPunch :=
  ⟨rfl, rfl⟩

/-- `splitChar` never returns an empty list of pieces. -/
theorem splitChar_ne_nil (sep : Char) : ∀ l : List Char, splitChar sep l ≠ [] := by
  intro l
  induction l with
  | nil => simp [splitChar]
  | cons c cs ih =>
    simp only [splitChar]
    cases hsm : splitChar sep cs with
    | nil => simp
    | cons h t => by_cases hc : c = sep <;> simp [hc]

/-- Splitting a separator-free list yields the list itself as the single
piece. -/
theorem splitChar_nosep (sep : Char) : ∀ l : List Char, sep ∉ l → splitChar sep l = [l] := by
  intro l
  induction l with
  | nil => intro _; rfl
  | cons c cs ih =>
    intro h
    have hc : c ≠ sep := fun he => h (he ▸ List.mem_cons_self c cs)
    have hcs : sep ∉ cs := fun hm => h (List.mem_cons_of_mem _ hm)
    simp only [splitChar, ih hcs]
    rw [if_neg hc]

/-- Splitting past a separator-free prefix peels off that prefix. -/
theorem splitChar_append (sep : Char) (m : List Char) :
    ∀ l : List Char, sep ∉ l → splitChar sep (l ++ sep :: m) = l :: splitChar sep m := by
  intro l
  induction l with
  | nil =>
    intro _
    simp only [List.nil_append, splitChar]
    cases hsm : splitChar sep m with
    | nil => exact absurd hsm (splitChar_ne_nil sep m)
    | cons h t => simp
  | cons c cs ih =>
    intro h
    have hc : c ≠ sep := fun he => h (he ▸ List.mem_cons_self c cs)
    have hcs : sep ∉ cs := fun hm => h (List.mem_cons_of_mem _ hm)
    have hstep : splitChar sep ((c :: cs) ++ sep :: m)
        = match splitChar sep (cs ++ sep :: m) with
          | [] => [[]]
          | h :: t => if c = sep then [] :: h :: t else (c :: h) :: t := rfl
    rw [hstep, ih hcs]
    simp [hc]

/-- Splitting inverts joining for nonempty, separator-free pieces. -/
theorem splitChar_joinSep (sep : Char) :
    ∀ (ls : List (List Char)) (l : List Char), sep ∉ l → (∀ p ∈ ls, sep ∉ p) →
      splitChar sep (joinSep sep (l :: ls)) = l :: ls := by
  intro ls
  induction ls with
  | nil =>
    intro l hl _
    exact splitChar_nosep sep l hl
  | cons l2 ls2 ih =>
    intro l hl hls
    rw [show joinSep sep (l :: l2 :: ls2) = l ++ sep :: joinSep sep (l2 :: ls2) from rfl]
    rw [splitChar_append sep _ l hl]
    rw [ih l2 (hls l2 (List.mem_cons_self _ _)) (fun p hp => hls p (List.mem_cons_of_mem _ hp))]

/-- For a group with at least one punch whose values are comma-free, the
split pieces are exactly the group's punch times. -/
theorem partsOf_eq (g : PGroup) (hne : g.times ≠ [])
    (hcomma : ∀ t ∈ g.times, ',' ∉ t.data) :
    partsOf g = g.times.map some := by
  cases ht : g.times with
  | nil => exact absurd ht hne
  | cons t ts =>
    have hemp : g.times.isEmpty = false := by rw [ht]; rfl
    simp only [partsOf, group_concat, hemp, Bool.false_eq_true, if_false]
    rw [ht, List.map_cons]
    rw [splitChar_joinSep ',' (ts.map String.data) t.data
      (hcomma t (ht ▸ List.mem_cons_self _ _))
      (fun p hp => by
        obtain ⟨t', ht', he⟩ := List.mem_map.mp hp
        exact he ▸ hcomma t' (ht ▸ List.mem_cons_of_mem _ ht'))]
    rw [← List.map_cons, List.map_map]
    rfl

/-- Each group's piece count is bounded by the pivot width. -/
theorem le_maxSplits (groups : List PGroup) :
    ∀ g ∈ groups, numParts g ≤ maxSplits groups := by
  induction groups with
  | nil => intro g h; exact absurd h (List.not_mem_nil g)
  | cons g0 gs ih =>
    intro g h
    show numParts g ≤ max (numParts g0) (maxSplits gs)
    rcases List.mem_cons.mp h with he | hm
    · rw [he]; exact le_max_left _ _
    · exact le_trans (ih g hm) (le_max_right _ _)

/-- Any index below the pivot width is covered by some group's pieces. -/
theorem lt_maxSplits_exists (groups : List PGroup) (j : Nat) (h : j < maxSplits groups) :
    ∃ g, g ∈ groups ∧ j < numParts g := by
  induction groups with
  | nil => exact absurd h (by simp [maxSplits])
  | cons g0 gs ih =>
    have h' : j < max (numParts g0) (maxSplits gs) := h
    rcases lt_max_iff.mp h' with h1 | h2
    · exact ⟨g0, List.mem_cons_self _ _, h1⟩
    · obtain ⟨g, hg, hj⟩ := ih h2
      exact ⟨g, List.mem_cons_of_mem _ hg, hj⟩

/-- When every group's pieces are its punches, the pivot width is the
maximum punch count. -/
theorem maxSplits_eq_maxPunches (groups : List PGroup)
    (h : ∀ g ∈ groups, numParts g = g.times.length) :
    maxSplits groups = maxPunches groups := by
  induction groups with
  | nil => rfl
  | cons g0 gs ih =>
    show max (numParts g0) (maxSplits gs) = max g0.times.length (maxPunches gs)
    rw [h g0 (List.mem_cons_self _ _), ih (fun g hg => h g (List.mem_cons_of_mem _ hg))]

/-- Padding to at least the list's length gives exactly that width. -/
theorem padTo_length (n : Nat) (l : List (Option String)) (h : l.length ≤ n) :
    (padTo n l).length = n := by
  simp only [padTo, List.length_append, List.length_replicate]
  omega

/-- Padding on the right leaves entries below the original length. -/
theorem padTo_getD_lt (n : Nat) (l : List (Option String)) (j : Nat) (h : j < l.length) :
    (padTo n l).getD j none = l.getD j none := by
  rw [padTo, List.getD_append _ _ _ _ h]

/-- An entry of `l.map some` below the length is non-null. -/
theorem getD_map_isSome (l : List String) (j : Nat) (h : j < l.length) :
    ((l.map some).getD j none).isSome = true := by
  rw [List.getD_eq_getElem?_getD, List.getElem?_map]
  rw [List.getElem?_eq_getElem h]
  rfl

/-- Reading every position of a list back off by index reproduces it. -/
theorem range_map_getD (l : List (Option String)) :
    (List.range l.length).map (fun j => l.getD j none) = l := by
  apply List.ext_getElem
  · simp
  · intro i h1 h2
    simp only [List.getElem_map, List.getElem_range]
    exact List.getD_eq_getElem l none h2

/-- Under the C7 hypotheses no pivot column is entirely null, so
`dropna(axis=1, how='all')` keeps every column position. -/
theorem keptTimeCols_all (groups : List PGroup)
    (hne : ∀ g ∈ groups, g.times ≠ [])
    (hcomma : ∀ g ∈ groups, ∀ t ∈ g.times, ',' ∉ t.data) :
    keptTimeCols groups = List.range (maxSplits groups) := by
  rw [keptTimeCols]
  apply List.filter_eq_self.mpr
  intro j hj
  rw [List.mem_range] at hj
  obtain ⟨g, hg, hjp⟩ := lt_maxSplits_exists groups j hj
  rw [List.any_eq_true]
  refine ⟨g, hg, ?_⟩
  have hjl : j < (partsOf g).length := hjp
  rw [expandedTimes, padTo_getD_lt _ _ _ hjl]
  rw [partsOf_eq g (hne g hg) (hcomma g hg)]
  rw [partsOf_eq g (hne g hg) (hcomma g hg)] at hjl
  rw [List.length_map] at hjl
  exact getD_map_isSome g.times j hjl

/-- C7: for comma-free groups each holding at least one punch, the pivot
width equals the maximum punch count over all groups, the pivot keeps
the row count, and every output row carries exactly that many time
columns — its own punches padded with nulls on the right. -/
theorem claim7_pivot_invariants (groups : List PGroup)
    (hne : ∀ g ∈ groups, g.times ≠ [])
    (hcomma : ∀ g ∈ groups, ∀ t ∈ g.times, ',' ∉ t.data) :
    maxSplits groups = maxPunches groups ∧
    (integrate_data groups).length = groups.length ∧
    ∀ g ∈ groups, (finalTimes groups g).length = maxSplits groups ∧
      finalTimes groups g = padTo (maxSplits groups) (g.times.map some) := by
  have hparts : ∀ g ∈ groups, partsOf g = g.times.map some := fun g hg =>
    partsOf_eq g (hne g hg) (hcomma g hg)
  have hnum : ∀ g ∈ groups, numParts g = g.times.length := fun g hg => by
    rw [numParts, hparts g hg, List.length_map]
  have hkept : keptTimeCols groups = List.range (maxSplits groups) :=
    keptTimeCols_all groups hne hcomma
  refine ⟨maxSplits_eq_maxPunches groups hnum, by simp [integrate_data], ?_⟩
  intro g hg
  have hlenp : (partsOf g).length ≤ maxSplits groups := le_maxSplits groups g hg
  have hexp : (expandedTimes groups g).length = maxSplits groups :=
    padTo_length _ _ hlenp
  have hfin : finalTimes groups g = expandedTimes groups g := by
    rw [finalTimes, hkept, ← hexp, range_map_getD]
  constructor
  · rw [hfin, hexp]
  · rw [hfin, expandedTimes, hparts g hg]

/-- Witness for C7: on two concrete groups with 2 and 1 punches the
pivot width is the maximum punch count and the row count is kept. -/
theorem claim7_witness :
    maxSplits [grpA, grpB] = maxPunches [grpA, grpB] ∧
    (integrate_data [grpA, grpB]).length = [grpA, grpB].length :=
  ⟨(claim7_pivot_invariants [grpA, grpB] (by decide) (by decide)).1,
   (claim7_pivot_invariants [grpA, grpB] (by decide) (by decide)).2.1⟩
